import Mathlib

/-!
Verification of the session-authentication and access-gating subsystem.

The JavaScript/TypeScript source is shallowly embedded: JS strings become
`List Char`, JS numbers become `Int`/`Nat` (all arithmetic here is exact
integer arithmetic), `undefined`/`null` become `Option`, and the ambient
environment (`process.env`) becomes an explicit `Env` record.  The
HMAC-SHA-256 primitive is treated as an abstract parameter
`mac : Str → Str → List Nat` (secret, message ↦ signature bytes); theorems
that need facts about it (32-byte output, bytes below 256) take them as
hypotheses.  Base64 decoding follows the Node `Buffer` code path used by
the source (the middleware pins `runtime: "nodejs"`), which never throws.
-/

/-- JS strings are modelled as lists of characters. -/
abbrev Str := List Char

/-- JS `String.prototype.trim`: drop whitespace from both ends. -/
def jsTrim (s : Str) : Str :=
  ((s.dropWhile Char.isWhitespace).reverse.dropWhile Char.isWhitespace).reverse

/-- JS `String.prototype.toLowerCase` (ASCII-level model). -/
def jsToLower (s : Str) : Str := s.map Char.toLower

/-- JS `String.prototype.split` with a single-character separator.
Always returns a non-empty list of segments. -/
def splitOnChar (c : Char) : Str → List Str
  | [] => [[]]
  | x :: xs =>
    match splitOnChar c xs with
    | [] => [[]]
    | h :: t => if x = c then [] :: h :: t else (x :: h) :: t

/-- The digit characters, used to model JS decimal printing. -/
def digitChar (d : Nat) : Char :=
  match d with
  | 0 => '0' | 1 => '1' | 2 => '2' | 3 => '3' | 4 => '4'
  | 5 => '5' | 6 => '6' | 7 => '7' | 8 => '8' | 9 => '9'
  | _ => '*'

/-- Numeric value of a digit character. -/
def charVal (c : Char) : Nat := c.toNat - 48

/-- Decimal value of a big-endian digit string. -/
def digitsToNat (ds : Str) : Nat := ds.foldl (fun a c => a * 10 + charVal c) 0

/-- Big-endian decimal digits of `n`, most significant first; the first
argument is fuel (`n` itself is always enough). -/
def natDecimalAux : Nat → Nat → Str
  | 0, _ => []
  | fuel + 1, n => if n = 0 then [] else natDecimalAux fuel (n / 10) ++ [digitChar (n % 10)]

/-- JS decimal printing of a natural number (`${n}`). -/
def natDecimal (n : Nat) : Str := if n = 0 then ['0'] else natDecimalAux n n

/-- JS decimal printing of an integer-valued number (`${n}`). -/
def intDecimal (i : Int) : Str :=
  if i < 0 then '-' :: natDecimal (-i).toNat else natDecimal i.toNat

/-- Leading decimal digits of a string, as a number; `none` when the string
does not begin with a digit. -/
def parseDigitsPre (s : Str) : Option Nat :=
  let ds := s.takeWhile Char.isDigit
  if ds = [] then none else some (digitsToNat ds)

/-- Sign handling of `Number.parseInt` after whitespace skipping. -/
def jsParseIntCore : Str → Option Int
  | [] => none
  | c :: rest =>
    if c = '-' then (parseDigitsPre rest).map (fun n => -(n : Int))
    else if c = '+' then (parseDigitsPre rest).map (fun n => (n : Int))
    else (parseDigitsPre (c :: rest)).map (fun n => (n : Int))

/-- JS `Number.parseInt(s, 10)`: skip leading whitespace, optional sign,
then read leading decimal digits; `none` models `NaN`. -/
def jsParseInt (s : Str) : Option Int :=
  jsParseIntCore (s.dropWhile Char.isWhitespace)

/-! ## Base64 / base64url codec (`toBase64Url` / `fromBase64Url`) -/

/-- The standard base64 alphabet, in index order. -/
def b64Alphabet : Str :=
  ("ABCDEFGHIJKLMNOPQRSTUVWXYZabcdefghijklmnopqrstuvwxyz0123456789+/".toList)

/-- Character for a 6-bit value. -/
def b64Char (n : Nat) : Char := b64Alphabet.getD n 'A'

/-- 6-bit value of a base64 character (`b64Alphabet.length` for others). -/
def b64Index (c : Char) : Nat := b64Alphabet.indexOf c

/-- Standard base64 encoding of a byte list, with `=` padding, as produced
by `Buffer.from(bytes).toString("base64")`. -/
def b64EncodeBytes : List Nat → Str
  | [] => []
  | [b1] => [b64Char (b1 / 4), b64Char (b1 % 4 * 16), '=', '=']
  | [b1, b2] => [b64Char (b1 / 4), b64Char (b1 % 4 * 16 + b2 / 16), b64Char (b2 % 16 * 4), '=']
  | b1 :: b2 :: b3 :: rest =>
    b64Char (b1 / 4) :: b64Char (b1 % 4 * 16 + b2 / 16) ::
      b64Char (b2 % 16 * 4 + b3 / 64) :: b64Char (b3 % 64) :: b64EncodeBytes rest

/-- Standard base64 decoding of a padded character list, as performed by
`Buffer.from(s, "base64")`. -/
def b64DecodeChars : Str → List Nat
  | c1 :: c2 :: c3 :: c4 :: rest =>
    if c4 = '=' then
      if c3 = '=' then [b64Index c1 * 4 + b64Index c2 / 16]
      else [b64Index c1 * 4 + b64Index c2 / 16, b64Index c2 % 16 * 16 + b64Index c3 / 4]
    else
      (b64Index c1 * 4 + b64Index c2 / 16) ::
        (b64Index c2 % 16 * 16 + b64Index c3 / 4) ::
        (b64Index c3 % 4 * 64 + b64Index c4) :: b64DecodeChars rest
  | _ => []

/-- The URL-safe substitution (plus becomes dash, slash becomes underscore)
on one character. -/
def b64ToUrlChar (c : Char) : Char :=
  if c = '+' then '-' else if c = '/' then '_' else c

/-- The inverse URL-safe substitution (dash becomes plus, underscore becomes
slash) on one character. -/
def b64FromUrlChar (c : Char) : Char :=
  if c = '-' then '+' else if c = '_' then '/' else c

/-- Strip all trailing `=` characters (the padding-removal replace). -/
def dropTrailingEq (s : Str) : Str := (s.reverse.dropWhile (fun c => c = '=')).reverse

/-- `toBase64Url` from the source: base64-encode, make URL-safe, strip
padding. -/
def toBase64Url (bytes : List Nat) : Str :=
  dropTrailingEq ((b64EncodeBytes bytes).map b64ToUrlChar)

/-- Number of `=` characters re-added by `"===".slice((len + 3) % 4)`. -/
def b64PadCount (len : Nat) : Nat := 3 - (len + 3) % 4

/-- `fromBase64Url` from the source: undo the URL-safe mapping, re-pad,
base64-decode. -/
def fromBase64Url (s : Str) : List Nat :=
  b64DecodeChars (s.map b64FromUrlChar ++ List.replicate (b64PadCount s.length) '=')

/-! ## Data model: credential records and configuration -/

/-- A raw entry of the static `AUTH_USERS` configuration list, before
validation; absent JSON fields are `none`. -/
structure RawAuthUser where
  username : Option Str
  password : Option Str
  company : Option Str
  dashboard : Option Str
  label : Option Str
  projectId : Option Str
deriving DecidableEq

/-- A validated credential record (the `AuthUser` type of the source; in the
database backend the `password` field holds the bcrypt hash). -/
structure AuthUser where
  username : Str
  password : Str
  company : Str
  dashboard : Str
  label : Str
  projectId : Option Str
deriving DecidableEq

/-- `AuthenticatedUser`: a credential record with the secret stripped. -/
structure AuthenticatedUser where
  username : Str
  company : Str
  dashboard : Str
  label : Str
  projectId : Option Str
deriving DecidableEq

/-- Drop the password field (`const { password: _password, ...rest } = match`). -/
def stripPassword (u : AuthUser) : AuthenticatedUser :=
  { username := u.username, company := u.company, dashboard := u.dashboard,
    label := u.label, projectId := u.projectId }

/-- The possible shapes of the `AUTH_USERS` environment variable after
`JSON.parse`: unset/empty, unparsable, parsed but not an array, or an
array of entries. -/
inductive AuthUsersConfig where
  | absent
  | invalidJson
  | notArray
  | array (entries : List RawAuthUser)
deriving DecidableEq

/-- Console output produced during credential loading. -/
inductive LogEvent where
  | error (msg : Str)
  | warn (msg : Str)
deriving DecidableEq

/-- The slice of `process.env` the subsystem reads. -/
structure Env where
  authSecret : Option Str
  authUsers : AuthUsersConfig
  sessionMaxAge : Option Str
  authMode : Option Str
deriving DecidableEq

/-- `getAuthSecret` / `getAuthSecretFromEnv`:
`process.env.AUTH_SECRET?.trim() || null`. -/
def getAuthSecret (env : Env) : Option Str :=
  match env.authSecret with
  | none => none
  | some s => if jsTrim s = [] then none else some (jsTrim s)

/-- The `company` derivation in `parseUsers`:
`entry.company?.trim() ?? entry.dashboard?.split("/").pop()`. -/
def deriveCompany (e : RawAuthUser) : Option Str :=
  match e.company.map jsTrim with
  | some c => some c
  | none => e.dashboard.map (fun d => (splitOnChar '/' d).getLastD [])

/-- The per-entry body of the `parseUsers` loop; `none` models `continue`. -/
def processEntry (e : RawAuthUser) : Option AuthUser :=
  let username := (e.username.map jsTrim).getD []
  let password := e.password.getD []
  let company := (deriveCompany e).getD []
  if username = [] ∨ password = [] ∨ company = [] then none
  else
    let dashboard :=
      match e.dashboard.map jsTrim with
      | none => ("/dashboard/".toList) ++ company
      | some d =>
        if d = [] then ("/dashboard/".toList) ++ company
        else if (['/']).isPrefixOf d then d
        else '/' :: d
    let label :=
      match e.label.map jsTrim with
      | none => company
      | some l => if l = [] then company else l
    let projectId :=
      match e.projectId.map jsTrim with
      | none => none
      | some p => if p = [] then none else some p
    some { username := username, password := password, company := company,
           dashboard := dashboard, label := label, projectId := projectId }

/-- The `for`-loop of `parseUsers`: validate entries in order, skipping
malformed ones. -/
def parseUsersList : List RawAuthUser → List AuthUser
  | [] => []
  | e :: rest =>
    match processEntry e with
    | none => parseUsersList rest
    | some u => u :: parseUsersList rest

/-- `parseUsers` over the raw configuration, paired with the console
output it produces. -/
def parseUsersCfg : AuthUsersConfig → List AuthUser × List LogEvent
  | .absent => ([], [])
  | .invalidJson => ([], [.error ("AUTH_USERS kon niet geparse worden als JSON:".toList)])
  | .notArray => ([], [.error ("AUTH_USERS moet een array zijn van gebruikersobjecten.".toList)])
  | .array entries => (parseUsersList entries, [])

/-- The memoized in-memory credential table. -/
def envUsersTable (env : Env) : List AuthUser := (parseUsersCfg env.authUsers).1

/-- `findUserByUsername`: first table record with the given username. -/
def findUserByUsername (env : Env) (username : Str) : Option AuthUser :=
  (envUsersTable env).find? (fun u => u.username = username)

/-- `verifyCredentials` (static backend): exact password match, then strip
the password. -/
def verifyCredentials (env : Env) (username password : Str) : Option AuthenticatedUser :=
  match findUserByUsername env username with
  | none => none
  | some m => if m.password ≠ password then none else some (stripPassword m)

/-! ## Database row mapping (`normalizeDashboardPath`, `mapRowToAuthUser`,
`dbFindUserByUsername`) -/

/-- A row of the `auth_users` table as returned by the credential query
(`COALESCE(is_active, true) AS is_active` keeps `is_active` nullable in the
model; `getD true` applies the coalesce). -/
structure AuthUserRow where
  username : Str
  password_hash : Str
  company : Str
  dashboard_path : Option Str
  label : Option Str
  project_id : Option Str
  is_active : Option Bool
deriving DecidableEq

/-- `normalizeDashboardPath` from the database auth module. -/
def normalizeDashboardPath (provided : Option Str) (company : Str) : Str :=
  match provided with
  | some p =>
    if jsTrim p ≠ [] then
      (if (['/']).isPrefixOf (jsTrim p) then jsTrim p else '/' :: jsTrim p)
    else ("/dashboard/".toList) ++ company
  | none => ("/dashboard/".toList) ++ company

/-- `mapRowToAuthUser`: turn a database row into a credential record. -/
def mapRowToAuthUser (row : AuthUserRow) : AuthUser :=
  { username := row.username, password := row.password_hash, company := row.company,
    dashboard := normalizeDashboardPath row.dashboard_path row.company,
    label := (row.label.getD row.company), projectId := row.project_id }

/-- `dbFindUserByUsername` over an explicit table: parameterized lookup of
the first row with the given (trimmed) username, rejecting inactive rows. -/
def dbFindUserByUsername (table : List AuthUserRow) (username : Str) : Option AuthUser :=
  if jsTrim username = [] then none
  else
    match table.find? (fun r => r.username = jsTrim username) with
    | none => none
    | some row => if (row.is_active.getD true) = false then none else some (mapRowToAuthUser row)

/-! ## Token codec (`getSessionTtl`, `createSessionToken`,
`verifySessionToken`) -/

/-- `DEFAULT_SESSION_TTL_SECONDS = 60 * 60 * 8`. -/
def DEFAULT_SESSION_TTL_SECONDS : Int := 60 * 60 * 8

/-- `getSessionTtl`: the configured session TTL in seconds, defaulting to
8 hours on unset, unparsable or non-positive configuration. -/
def getSessionTtl : Option Str → Int
  | none => DEFAULT_SESSION_TTL_SECONDS
  | some s =>
    if s = [] then DEFAULT_SESSION_TTL_SECONDS
    else
      match jsParseInt s with
      | none => DEFAULT_SESSION_TTL_SECONDS
      | some parsed => if parsed ≤ 0 then DEFAULT_SESSION_TTL_SECONDS else parsed

/-- `createPayload(username, expiresAt)`. -/
def createPayload (username : Str) (expiresAt : Int) : Str :=
  username ++ ':' :: intDecimal expiresAt

/-- A session token: the encoded cookie value and its expiry. -/
structure SessionToken where
  value : Str
  expiresAt : Int
deriving DecidableEq

/-- `createSessionToken`, with the HMAC primitive abstracted as `mac` and
`Date.now()` as `now` (epoch milliseconds). -/
def createSessionToken (mac : Str → Str → List Nat) (env : Env) (now : Int)
    (username : Str) : Option SessionToken :=
  match getAuthSecret env with
  | none => none
  | some secret =>
    let expiresAt := now + getSessionTtl env.sessionMaxAge * 1000
    let payload := createPayload username expiresAt
    some { value := payload ++ '.' :: toBase64Url (mac secret payload), expiresAt := expiresAt }

/-- The part of `verifySessionToken` after the `.`-split: parse the payload
as `subject:expiresAt`, reject empty subjects, unparsable or expired
timestamps, check the HMAC, then re-resolve the subject. -/
def verifyParts (mac : Str → Str → List Nat) (find : Str → Option AuthUser)
    (secret : Str) (now : Int) (payload sig : Str) : Option AuthenticatedUser :=
  let pparts := splitOnChar ':' payload
  let username := pparts.headD []
  let expiresAtRaw := (pparts.get? 1).getD []
  match jsParseInt expiresAtRaw with
  | none => none
  | some expiresAt =>
    if username = [] then none
    else if expiresAt ≤ now then none
    else if fromBase64Url sig = mac secret payload then
      match find username with
      | none => none
      | some u => some (stripPassword u)
    else none

/-- `verifySessionToken`, with the credential lookup and secret abstracted
(the source reads them from module state). -/
def verifySessionTokenWith (mac : Str → Str → List Nat) (find : Str → Option AuthUser)
    (secretOpt : Option Str) (now : Int) (token : Option Str) : Option AuthenticatedUser :=
  match token with
  | none => none
  | some tok =>
    if tok = [] then none
    else
      match secretOpt with
      | none => none
      | some secret =>
        let parts := splitOnChar '.' tok
        let payload := parts.headD []
        match parts.get? 1 with
        | none => none
        | some sig =>
          if payload = [] then none
          else if sig = [] then none
          else verifyParts mac find secret now payload sig

/-- `verifySessionToken` with the static credential store plugged in. -/
def verifySessionToken (mac : Str → Str → List Nat) (env : Env) (now : Int)
    (token : Option Str) : Option AuthenticatedUser :=
  verifySessionTokenWith mac (findUserByUsername env) (getAuthSecret env) now token

/-- Join segments back with `.` separators (used to express the spec's
"everything before the last `.`"). -/
def joinWithDot : List Str → Str
  | [] => []
  | [x] => x
  | x :: rest => x ++ '.' :: joinWithDot rest

/-- Modelled from the spec: `verify(token)` as §4.3 words it — "splits on
the last `.` separator into `payload` and `signature`; both parts must be
present" — followed by the same payload/signature pipeline as the source.
Used to compare the spec's split rule against the source's. -/
def verifySessionTokenLastSplit (mac : Str → Str → List Nat) (find : Str → Option AuthUser)
    (secretOpt : Option Str) (now : Int) (token : Option Str) : Option AuthenticatedUser :=
  match token with
  | none => none
  | some tok =>
    if tok = [] then none
    else
      match secretOpt with
      | none => none
      | some secret =>
        match (splitOnChar '.' tok).length with
        | 0 => none
        | 1 => none
        | _ + 2 =>
          let parts := splitOnChar '.' tok
          let payload := joinWithDot parts.dropLast
          let sig := parts.getLastD []
          if payload = [] then none
          else if sig = [] then none
          else verifyParts mac find secret now payload sig

/-! ## Session gate (middleware) -/

/-- `AUTH_MODE` values. -/
inductive AuthMode where
  | envMode
  | databaseMode
deriving DecidableEq

/-- `normalizeMode`: anything but (trimmed, lowercased) `"database"` is the
static env mode. -/
def normalizeMode (value : Option Str) : AuthMode :=
  match value with
  | none => .envMode
  | some s => if jsToLower (jsTrim s) = ("database".toList) then .databaseMode else .envMode

/-- `USE_DATABASE`. -/
def useDatabase (env : Env) : Bool := normalizeMode env.authMode = AuthMode.databaseMode

/-- `envUsersConfigured`: `AUTH_USERS` parses to a non-empty array. -/
def envUsersConfigured : AuthUsersConfig → Bool
  | .array entries => !entries.isEmpty
  | _ => false

/-- `isAuthConfigured`: a (trimmed) secret is present, and in non-database
mode some static credentials are configured. -/
def isAuthConfigured (env : Env) : Bool :=
  match getAuthSecret env with
  | none => false
  | some _ => if useDatabase env then true else envUsersConfigured env.authUsers

/-- The gate's three terminal actions.  A redirect location is kept
structurally: target path plus the optional `from` return-path parameter;
a reject body is a JSON object as key/value pairs. -/
inductive GateAction where
  | pass
  | redirect (path : Str) (fromParam : Option Str)
  | reject (status : Nat) (body : List (Str × Str))
deriving DecidableEq

/-- The request data the middleware consults. -/
structure Request where
  pathname : Str
  search : Str
  cookie : Option Str
deriving DecidableEq

/-- `PUBLIC_PATHS`. -/
def PUBLIC_PATHS : List Str :=
  [("/".toList), ("/login".toList), ("/favicon.ico".toList),
   ("/icon.ico".toList), ("/manifest.json".toList)]

/-- `STATIC_PREFIXES`. -/
def staticPathStarts : List Str :=
  [("/_next".toList), ("/public".toList), ("/assets".toList)]

/-- `STATIC_EXTENSIONS`. -/
def STATIC_EXTENSIONS : List Str :=
  [(".png".toList), (".jpg".toList), (".jpeg".toList), (".gif".toList),
   (".svg".toList), (".webp".toList), (".ico".toList), (".txt".toList)]

/-- `getPathExtension`: lowercased suffix from the last `.` (inclusive),
`none` when the path has no dot. -/
def getPathExtension (pathname : Str) : Option Str :=
  if '.' ∈ pathname then
    some (List.map Char.toLower ('.' :: (pathname.reverse.takeWhile (fun c => c ≠ '.')).reverse))
  else none

/-- The public/static allow-list check of the middleware. -/
def isPublicOrStatic (pathname : Str) : Bool :=
  decide (pathname ∈ PUBLIC_PATHS)
  || staticPathStarts.any (fun p => p.isPrefixOf pathname)
  || decide (((getPathExtension pathname).getD []) ∈ STATIC_EXTENSIONS)

/-- The middleware body, with the configured-flag and the token verifier
abstracted. -/
def middlewareWith (configured : Bool) (verify : Option Str → Option AuthenticatedUser)
    (req : Request) : GateAction :=
  if !configured then .pass
  else if isPublicOrStatic req.pathname then .pass
  else
    match verify req.cookie with
    | some user =>
      if req.pathname = ("/login".toList) then .redirect ("/chat".toList) none
      else if req.pathname = ("/dashboard".toList) then .redirect user.dashboard none
      else .pass
    | none =>
      if ("/api".toList).isPrefixOf req.pathname then
        .reject 401 [(("error".toList), ("Niet geautoriseerd".toList))]
      else
        .redirect ("/login".toList)
          (if req.pathname = ("/login".toList) then none
           else some (req.pathname ++ req.search))

/-- The middleware with the configuration flag and static-store verifier
plugged in. -/
def middleware (mac : Str → Str → List Nat) (env : Env) (now : Int) (req : Request) : GateAction :=
  middlewareWith (isAuthConfigured env) (verifySessionToken mac env now) req

/-- The malformedness condition of a raw configuration entry: no usable
username, password, or derivable company. -/
def entryMalformed (e : RawAuthUser) : Prop :=
  (e.username.map jsTrim).getD [] = [] ∨ e.password.getD [] = [] ∨ (deriveCompany e).getD [] = []

/-! ## Concrete test fixtures (used by witnesses and counterexamples) -/

/-- A degenerate HMAC (constant all-zero 32-byte output) used to
instantiate the abstract primitive in concrete checks. -/
def macZero : Str → Str → List Nat := fun _ _ => List.replicate 32 0

/-- A well-formed static configuration entry. -/
def aliceRaw : RawAuthUser :=
  { username := some ("alice".toList), password := some ("pw".toList),
    company := some ("acme".toList), dashboard := none, label := none, projectId := none }

/-- The credential record `aliceRaw` parses to. -/
def aliceUser : AuthUser :=
  { username := ("alice".toList), password := ("pw".toList), company := ("acme".toList),
    dashboard := ("/dashboard/acme".toList), label := ("acme".toList), projectId := none }

/-- An environment with a secret and one static credential. -/
def cenv : Env :=
  { authSecret := some ("s3cret".toList), authUsers := .array [aliceRaw],
    sessionMaxAge := none, authMode := none }

/-- A direct credential lookup for `aliceUser`. -/
def findAlice : Str → Option AuthUser :=
  fun s => if s = ("alice".toList) then some aliceUser else none

/-- A configuration entry whose username contains the payload separator. -/
def colonRaw : RawAuthUser :=
  { username := some ("a:b".toList), password := some ("pw".toList),
    company := some ("acme".toList), dashboard := none, label := none, projectId := none }

/-- An environment whose single credential has username `a:b`. -/
def colonEnv : Env :=
  { authSecret := some ("s3cret".toList), authUsers := .array [colonRaw],
    sessionMaxAge := none, authMode := none }

/-- The base64url encoding of 32 zero bytes (the `macZero` signature). -/
def sigZero : Str := toBase64Url (List.replicate 32 0)

/-- A token whose payload region contains an extra `.` segment: for
subject `alice`, expiry 99, with the `macZero` signature of `alice:99`
as the second segment and trailing junk as a third. -/
def tokC5 : Str := ("alice:99".toList) ++ '.' :: sigZero ++ '.' :: ("junk".toList)

/-- A malformed configuration entry (no username). -/
def badEntry : RawAuthUser :=
  { username := none, password := some ("pw".toList),
    company := some ("acme".toList), dashboard := none, label := none, projectId := none }

/-- An environment with credentials but no secret. -/
def noSecretEnv : Env :=
  { authSecret := none, authUsers := .array [aliceRaw],
    sessionMaxAge := none, authMode := none }

/-- An environment with a secret but an empty credential list, in
non-database mode. -/
def emptyUsersEnv : Env :=
  { authSecret := some ("s3cret".toList), authUsers := .array [],
    sessionMaxAge := none, authMode := none }

/-! # Helper lemmas -/

theorem dropWhile_eq_self_of (p : Char → Bool) (l : Str) (h : ∀ c ∈ l, p c = false) :
    l.dropWhile p = l := by
  induction l with
  | nil => rfl
  | cons x xs ih =>
    rw [List.dropWhile_cons, h x (by simp)]
    simp only [Bool.false_eq_true, if_false]

theorem takeWhile_eq_self_of (p : Char → Bool) (l : Str) (h : ∀ c ∈ l, p c = true) :
    l.takeWhile p = l :=
  List.takeWhile_eq_self_iff.mpr h

theorem dropTrailingEq_append (a b : Str) (ha : ∀ c ∈ a, c ≠ '=') :
    dropTrailingEq (a ++ b) = a ++ dropTrailingEq b := by
  unfold dropTrailingEq
  rw [List.reverse_append, List.dropWhile_append]
  have hrev : List.dropWhile (fun c => c = '=') a.reverse = a.reverse := by
    apply dropWhile_eq_self_of
    intro c hc
    exact decide_eq_false (ha c (List.mem_reverse.mp hc))
  by_cases hbe : (List.dropWhile (fun c => c = '=') b.reverse).isEmpty = true
  · rw [if_pos hbe, hrev, List.reverse_reverse]
    rw [List.isEmpty_iff] at hbe
    rw [hbe]
    simp
  · rw [if_neg hbe, List.reverse_append, List.reverse_reverse]

theorem splitOnChar_ne_nil (c : Char) (s : Str) : splitOnChar c s ≠ [] := by
  cases s with
  | nil => simp [splitOnChar]
  | cons x xs =>
    simp only [splitOnChar]
    cases h : splitOnChar c xs with
    | nil => simp
    | cons hd tl =>
      by_cases hx : x = c <;> simp [hx]

theorem splitOnChar_of_not_mem (c : Char) (s : Str) (h : c ∉ s) : splitOnChar c s = [s] := by
  induction s with
  | nil => rfl
  | cons x xs ih =>
    have hx : x ≠ c := fun e => h (e ▸ List.mem_cons_self x xs)
    have hxs : c ∉ xs := fun m => h (List.mem_cons_of_mem x m)
    simp only [splitOnChar, ih hxs, if_neg hx]

theorem splitOnChar_append (c : Char) (a b : Str) (h : c ∉ a) :
    splitOnChar c (a ++ c :: b) = a :: splitOnChar c b := by
  induction a with
  | nil =>
    simp only [List.nil_append, splitOnChar]
    cases hb : splitOnChar c b with
    | nil => exact absurd hb (splitOnChar_ne_nil c b)
    | cons hd tl => simp
  | cons x xs ih =>
    have hx : x ≠ c := fun e => h (e ▸ List.mem_cons_self x xs)
    have hxs : c ∉ xs := fun m => h (List.mem_cons_of_mem x m)
    simp only [List.cons_append, splitOnChar, List.append_eq, ih hxs, if_neg hx]

theorem splitOnChar_headD (c : Char) (s : Str) :
    (splitOnChar c s).headD [] = s.takeWhile (fun x => x ≠ c) := by
  induction s with
  | nil => rfl
  | cons x xs ih =>
    simp only [splitOnChar]
    cases hsp : splitOnChar c xs with
    | nil => exact absurd hsp (splitOnChar_ne_nil c xs)
    | cons hd tl =>
      by_cases hx : x = c
      · simp [hx, List.takeWhile_cons]
      · rw [hsp] at ih
        simp only [List.headD_cons] at ih
        simp [hx, List.takeWhile_cons, decide_eq_true (show x ≠ c from hx), ih]

theorem takeWhile_append_all (p : Char → Bool) (a b : Str) (h : ∀ c ∈ a, p c = true) :
    (a ++ b).takeWhile p = a ++ b.takeWhile p := by
  induction a with
  | nil => rfl
  | cons x xs ih =>
    simp only [List.cons_append, List.takeWhile_cons, h x (by simp)]
    rw [ih (fun c hc => h c (List.mem_cons_of_mem x hc))]
    simp

theorem takeWhile_append_stop (p : Char → Bool) (a b : Str) (h : ∃ c ∈ a, p c = false) :
    (a ++ b).takeWhile p = a.takeWhile p := by
  induction a with
  | nil => simp at h
  | cons x xs ih =>
    simp only [List.cons_append, List.takeWhile_cons]
    cases hp : p x with
    | false => simp
    | true =>
      simp only [if_true]
      obtain ⟨c, hc, hcf⟩ := h
      rcases List.mem_cons.mp hc with rfl | hcxs
      · rw [hp] at hcf; exact absurd hcf (by simp)
      · rw [ih ⟨c, hcxs, hcf⟩]

theorem length_takeWhile_lt (p : Char → Bool) (a : Str) (h : ∃ c ∈ a, p c = false) :
    (a.takeWhile p).length < a.length := by
  induction a with
  | nil => simp at h
  | cons x xs ih =>
    simp only [List.takeWhile_cons]
    cases hp : p x with
    | false => simp
    | true =>
      simp only [if_true, List.length_cons]
      obtain ⟨c, hc, hcf⟩ := h
      rcases List.mem_cons.mp hc with rfl | hcxs
      · rw [hp] at hcf; exact absurd hcf (by simp)
      · exact Nat.succ_lt_succ (ih ⟨c, hcxs, hcf⟩)

theorem charVal_digitChar : ∀ d, d < 10 → charVal (digitChar d) = d := by decide

theorem digitChar_isDigit : ∀ d, d < 10 → (digitChar d).isDigit = true := by decide

theorem digitChar_not_ws : ∀ d, d < 10 → (digitChar d).isWhitespace = false := by decide

theorem digitChar_ne : ∀ d, d < 10 →
    digitChar d ≠ '-' ∧ digitChar d ≠ '+' ∧ digitChar d ≠ '.' ∧ digitChar d ≠ ':' := by decide

theorem digitsToNat_natDecimalAux : ∀ fuel n, n ≤ fuel →
    digitsToNat (natDecimalAux fuel n) = n := by
  intro fuel
  induction fuel with
  | zero =>
    intro n hn
    interval_cases n
    rfl
  | succ fuel ih =>
    intro n hn
    by_cases h0 : n = 0
    · simp [natDecimalAux, h0, digitsToNat]
    · have hdiv : n / 10 ≤ fuel := by
        have hlt : n / 10 < n := Nat.div_lt_self (Nat.pos_of_ne_zero h0) (by norm_num)
        omega
      simp only [natDecimalAux, if_neg h0, digitsToNat, List.foldl_append, List.foldl_cons,
        List.foldl_nil]
      have hfold : (natDecimalAux fuel (n / 10)).foldl (fun a c => a * 10 + charVal c) 0
          = n / 10 := ih (n / 10) hdiv
      rw [hfold, charVal_digitChar (n % 10) (Nat.mod_lt n (by norm_num))]
      omega

theorem natDecimalAux_mem : ∀ fuel n c, c ∈ natDecimalAux fuel n →
    ∃ d, d < 10 ∧ c = digitChar d := by
  intro fuel
  induction fuel with
  | zero => intro n c hc; simp [natDecimalAux] at hc
  | succ fuel ih =>
    intro n c hc
    by_cases h0 : n = 0
    · simp [natDecimalAux, h0] at hc
    · simp only [natDecimalAux, if_neg h0, List.mem_append, List.mem_singleton] at hc
      rcases hc with hc | rfl
      · exact ih (n / 10) c hc
      · exact ⟨n % 10, Nat.mod_lt n (by norm_num), rfl⟩

theorem natDecimal_mem (n : Nat) (c : Char) (hc : c ∈ natDecimal n) :
    ∃ d, d < 10 ∧ c = digitChar d := by
  unfold natDecimal at hc
  by_cases h0 : n = 0
  · rw [if_pos h0] at hc
    simp at hc
    exact ⟨0, by norm_num, hc⟩
  · rw [if_neg h0] at hc
    exact natDecimalAux_mem n n c hc

theorem natDecimal_ne_nil (n : Nat) : natDecimal n ≠ [] := by
  unfold natDecimal
  by_cases h0 : n = 0
  · simp [h0]
  · rw [if_neg h0]
    cases n with
    | zero => exact absurd rfl h0
    | succ m =>
      simp only [natDecimalAux, if_neg h0]
      simp only [ne_eq, List.append_eq_nil, List.cons_ne_nil, and_false, not_false_eq_true]

theorem digitsToNat_natDecimal (n : Nat) : digitsToNat (natDecimal n) = n := by
  unfold natDecimal
  by_cases h0 : n = 0
  · simp [h0, digitsToNat, charVal]
  · rw [if_neg h0]
    exact digitsToNat_natDecimalAux n n (le_refl n)

theorem jsParseInt_natDecimal (n : Nat) : jsParseInt (natDecimal n) = some (n : Int) := by
  have hmem : ∀ c ∈ natDecimal n, ∃ d, d < 10 ∧ c = digitChar d := natDecimal_mem n
  have hdw : (natDecimal n).dropWhile Char.isWhitespace = natDecimal n := by
    apply dropWhile_eq_self_of
    intro c hc
    obtain ⟨d, hd, rfl⟩ := hmem c hc
    exact digitChar_not_ws d hd
  obtain ⟨c, rest, hcr⟩ := List.exists_cons_of_ne_nil (natDecimal_ne_nil n)
  have hcmem : c ∈ natDecimal n := by rw [hcr]; simp
  obtain ⟨d, hd, hcd⟩ := hmem c hcmem
  have hne := digitChar_ne d hd
  unfold jsParseInt
  rw [hdw, hcr]
  simp only [jsParseIntCore]
  rw [if_neg (hcd ▸ hne.1), if_neg (hcd ▸ hne.2.1)]
  have htw : (c :: rest).takeWhile Char.isDigit = c :: rest := by
    apply takeWhile_eq_self_of
    intro x hx
    obtain ⟨e, he, rfl⟩ := hmem x (hcr ▸ hx)
    exact digitChar_isDigit e he
  unfold parseDigitsPre
  simp only [htw]
  rw [if_neg (by simp)]
  have : digitsToNat (c :: rest) = n := by rw [← hcr]; exact digitsToNat_natDecimal n
  rw [this]
  rfl

theorem jsParseInt_intDecimal (i : Int) (h : 0 ≤ i) : jsParseInt (intDecimal i) = some i := by
  unfold intDecimal
  rw [if_neg (by omega)]
  rw [jsParseInt_natDecimal]
  rw [Int.toNat_of_nonneg h]

theorem b64Index_b64Char : ∀ s, s < 64 → b64Index (b64Char s) = s := by decide

theorem b64Char_ne_pad : ∀ s, s < 64 → b64Char s ≠ '=' := by decide

theorem b64Url_roundtrip : ∀ s, s < 64 → b64FromUrlChar (b64ToUrlChar (b64Char s)) = b64Char s := by decide

theorem b64UrlChar_ne_pad : ∀ s, s < 64 → b64ToUrlChar (b64Char s) ≠ '=' := by decide

theorem b64UrlChar_ne_dot : ∀ s, s < 64 → b64ToUrlChar (b64Char s) ≠ '.' := by decide

theorem b64PadCount_four (len : Nat) : b64PadCount (4 + len) = b64PadCount len := by
  unfold b64PadCount
  omega

theorem fromBase64Url_toBase64Url :
    ∀ bytes : List Nat, (∀ b ∈ bytes, b < 256) → fromBase64Url (toBase64Url bytes) = bytes
  | [], _ => by rfl
  | [b1], h => by
    have hb1 : b1 < 256 := h b1 (by simp)
    have hq1 : b1 / 4 < 64 := by omega
    have hq2 : b1 % 4 * 16 < 64 := by omega
    have hne1 : b64ToUrlChar (b64Char (b1 / 4)) ≠ '=' := b64UrlChar_ne_pad _ hq1
    have hne2 : b64ToUrlChar (b64Char (b1 % 4 * 16)) ≠ '=' := b64UrlChar_ne_pad _ hq2
    have henc : toBase64Url [b1]
        = [b64ToUrlChar (b64Char (b1 / 4)), b64ToUrlChar (b64Char (b1 % 4 * 16))] := by
      unfold toBase64Url
      simp only [b64EncodeBytes, List.map_cons, List.map_nil]
      have hsplit : ([b64ToUrlChar (b64Char (b1 / 4)), b64ToUrlChar (b64Char (b1 % 4 * 16)),
          b64ToUrlChar '=', b64ToUrlChar '='] : Str)
          = [b64ToUrlChar (b64Char (b1 / 4)), b64ToUrlChar (b64Char (b1 % 4 * 16))]
            ++ ['=', '='] := rfl
      rw [hsplit, dropTrailingEq_append _ _ (by
        intro c hc
        rcases List.mem_cons.mp hc with rfl | hc2
        · exact hne1
        · rcases List.mem_cons.mp hc2 with rfl | hc3
          · exact hne2
          · simp at hc3)]
      rfl
    rw [henc]
    unfold fromBase64Url
    simp only [List.map_cons, List.map_nil,
      b64Url_roundtrip _ hq1, b64Url_roundtrip _ hq2]
    have hplen : b64PadCount ([b64ToUrlChar (b64Char (b1 / 4)),
        b64ToUrlChar (b64Char (b1 % 4 * 16))] : Str).length = 2 := by
      simp [b64PadCount]
    rw [hplen]
    simp only [List.replicate, List.cons_append, List.nil_append, b64DecodeChars, if_pos rfl,
      b64Index_b64Char _ hq1, b64Index_b64Char _ hq2]
    simp only [if_true]
    congr 1
    omega
  | [b1, b2], h => by
    have hb1 : b1 < 256 := h b1 (by simp)
    have hb2 : b2 < 256 := h b2 (by simp)
    have hq1 : b1 / 4 < 64 := by omega
    have hq2 : b1 % 4 * 16 + b2 / 16 < 64 := by omega
    have hq3 : b2 % 16 * 4 < 64 := by omega
    have henc : toBase64Url [b1, b2]
        = [b64ToUrlChar (b64Char (b1 / 4)), b64ToUrlChar (b64Char (b1 % 4 * 16 + b2 / 16)),
           b64ToUrlChar (b64Char (b2 % 16 * 4))] := by
      unfold toBase64Url
      simp only [b64EncodeBytes, List.map_cons, List.map_nil]
      have hsplit : ([b64ToUrlChar (b64Char (b1 / 4)), b64ToUrlChar (b64Char (b1 % 4 * 16 + b2 / 16)),
          b64ToUrlChar (b64Char (b2 % 16 * 4)), b64ToUrlChar '='] : Str)
          = [b64ToUrlChar (b64Char (b1 / 4)), b64ToUrlChar (b64Char (b1 % 4 * 16 + b2 / 16)),
             b64ToUrlChar (b64Char (b2 % 16 * 4))] ++ ['='] := rfl
      rw [hsplit, dropTrailingEq_append _ _ (by
        intro c hc
        rcases List.mem_cons.mp hc with rfl | hc2
        · exact b64UrlChar_ne_pad _ hq1
        · rcases List.mem_cons.mp hc2 with rfl | hc3
          · exact b64UrlChar_ne_pad _ hq2
          · rcases List.mem_cons.mp hc3 with rfl | hc4
            · exact b64UrlChar_ne_pad _ hq3
            · simp at hc4)]
      rfl
    rw [henc]
    unfold fromBase64Url
    simp only [List.map_cons, List.map_nil,
      b64Url_roundtrip _ hq1, b64Url_roundtrip _ hq2, b64Url_roundtrip _ hq3]
    have hplen : b64PadCount ([b64ToUrlChar (b64Char (b1 / 4)),
        b64ToUrlChar (b64Char (b1 % 4 * 16 + b2 / 16)),
        b64ToUrlChar (b64Char (b2 % 16 * 4))] : Str).length = 1 := by
      simp [b64PadCount]
    rw [hplen]
    simp only [List.replicate, List.cons_append, List.nil_append, b64DecodeChars, if_pos rfl,
      if_neg (b64Char_ne_pad _ hq3),
      b64Index_b64Char _ hq1, b64Index_b64Char _ hq2, b64Index_b64Char _ hq3]
    simp only [if_true]
    have e1 : b1 / 4 * 4 + (b1 % 4 * 16 + b2 / 16) / 16 = b1 := by omega
    have e2 : (b1 % 4 * 16 + b2 / 16) % 16 * 16 + b2 % 16 * 4 / 4 = b2 := by omega
    rw [e1, e2]
  | b1 :: b2 :: b3 :: rest, h => by
    have hb1 : b1 < 256 := h b1 (by simp)
    have hb2 : b2 < 256 := h b2 (by simp)
    have hb3 : b3 < 256 := h b3 (by simp)
    have hrest : ∀ b ∈ rest, b < 256 := fun b hb =>
      h b (List.mem_cons_of_mem _ (List.mem_cons_of_mem _ (List.mem_cons_of_mem _ hb)))
    have ih := fromBase64Url_toBase64Url rest hrest
    have hq1 : b1 / 4 < 64 := by omega
    have hq2 : b1 % 4 * 16 + b2 / 16 < 64 := by omega
    have hq3 : b2 % 16 * 4 + b3 / 64 < 64 := by omega
    have hq4 : b3 % 64 < 64 := by omega
    have henc : toBase64Url (b1 :: b2 :: b3 :: rest)
        = [b64ToUrlChar (b64Char (b1 / 4)), b64ToUrlChar (b64Char (b1 % 4 * 16 + b2 / 16)),
           b64ToUrlChar (b64Char (b2 % 16 * 4 + b3 / 64)), b64ToUrlChar (b64Char (b3 % 64))]
          ++ toBase64Url rest := by
      unfold toBase64Url
      simp only [b64EncodeBytes, List.map_cons]
      have hsplit : (b64ToUrlChar (b64Char (b1 / 4)) :: b64ToUrlChar (b64Char (b1 % 4 * 16 + b2 / 16))
          :: b64ToUrlChar (b64Char (b2 % 16 * 4 + b3 / 64)) :: b64ToUrlChar (b64Char (b3 % 64))
          :: (b64EncodeBytes rest).map b64ToUrlChar)
          = [b64ToUrlChar (b64Char (b1 / 4)), b64ToUrlChar (b64Char (b1 % 4 * 16 + b2 / 16)),
             b64ToUrlChar (b64Char (b2 % 16 * 4 + b3 / 64)), b64ToUrlChar (b64Char (b3 % 64))]
            ++ (b64EncodeBytes rest).map b64ToUrlChar := rfl
      rw [hsplit, dropTrailingEq_append _ _ (by
        intro c hc
        rcases List.mem_cons.mp hc with rfl | hc2
        · exact b64UrlChar_ne_pad _ hq1
        · rcases List.mem_cons.mp hc2 with rfl | hc3
          · exact b64UrlChar_ne_pad _ hq2
          · rcases List.mem_cons.mp hc3 with rfl | hc4
            · exact b64UrlChar_ne_pad _ hq3
            · rcases List.mem_cons.mp hc4 with rfl | hc5
              · exact b64UrlChar_ne_pad _ hq4
              · simp at hc5)]
    rw [henc]
    unfold fromBase64Url
    rw [List.map_append, List.length_append]
    simp only [List.map_cons, List.map_nil, List.length_cons, List.length_nil,
      b64Url_roundtrip _ hq1, b64Url_roundtrip _ hq2, b64Url_roundtrip _ hq3,
      b64Url_roundtrip _ hq4]
    have hplen : 0 + 1 + 1 + 1 + 1 + (toBase64Url rest).length = 4 + (toBase64Url rest).length := by
      omega
    rw [hplen, b64PadCount_four]
    simp only [List.cons_append, List.nil_append, List.append_assoc]
    simp only [b64DecodeChars, if_neg (b64Char_ne_pad _ hq4),
      b64Index_b64Char _ hq1, b64Index_b64Char _ hq2, b64Index_b64Char _ hq3,
      b64Index_b64Char _ hq4]
    unfold fromBase64Url at ih
    rw [ih]
    congr 1
    · omega
    · congr 1
      · omega
      · congr 1
        omega

/-- C9: decoding the URL-safe, padding-stripped base64 encoding of any byte
sequence returns that byte sequence. -/
theorem base64url_roundtrip (bytes : List Nat) (h : ∀ b ∈ bytes, b < 256) :
    fromBase64Url (toBase64Url bytes) = bytes :=
  fromBase64Url_toBase64Url bytes h

/-- C9 witness: the round trip at the all-zero-byte and all-0xFF-byte
32-byte signatures. -/
theorem base64url_roundtrip_check :
    fromBase64Url (toBase64Url (List.replicate 32 0)) = List.replicate 32 0 ∧
    fromBase64Url (toBase64Url (List.replicate 32 255)) = List.replicate 32 255 :=
  ⟨base64url_roundtrip _ (by decide), base64url_roundtrip _ (by decide)⟩

theorem processEntry_none_iff (e : RawAuthUser) : processEntry e = none ↔ entryMalformed e := by
  unfold entryMalformed
  by_cases hc : (e.username.map jsTrim).getD [] = [] ∨ e.password.getD [] = []
      ∨ (deriveCompany e).getD [] = []
  · simp [processEntry, hc]
  · simp [processEntry, hc]

theorem parseUsersList_eq_filterMap (es : List RawAuthUser) :
    parseUsersList es = es.filterMap processEntry := by
  induction es with
  | nil => rfl
  | cons e rest ih =>
    simp only [parseUsersList, List.filterMap_cons]
    cases h : processEntry e with
    | none => simpa [h] using ih
    | some u => simpa [h] using ih

theorem processEntry_some_dashboard (e : RawAuthUser) (u : AuthUser)
    (h : processEntry e = some u) : (['/']).isPrefixOf u.dashboard = true := by
  by_cases hc : (e.username.map jsTrim).getD [] = [] ∨ e.password.getD [] = []
      ∨ (deriveCompany e).getD [] = []
  · simp [processEntry, hc] at h
  · simp only [processEntry, if_neg hc, Option.some.injEq] at h
    subst h
    simp only
    cases hd : e.dashboard.map jsTrim with
    | none => simp [hd, List.isPrefixOf]
    | some d =>
      by_cases hde : d = []
      · simp [hd, hde, List.isPrefixOf]
      · simp only [hd, if_neg hde]
        by_cases hsl : (['/'] : Str).isPrefixOf d
        · simp [hsl]
        · simp [hsl, List.isPrefixOf]

theorem processEntry_some_username (e : RawAuthUser) (u : AuthUser)
    (h : processEntry e = some u) : u.username ≠ [] := by
  by_cases hc : (e.username.map jsTrim).getD [] = [] ∨ e.password.getD [] = []
      ∨ (deriveCompany e).getD [] = []
  · simp [processEntry, hc] at h
  · simp only [processEntry, if_neg hc, Option.some.injEq] at h
    subst h
    simp only [ne_eq]
    intro hnil
    exact hc (Or.inl hnil)

theorem normalizeDashboardPath_slash (provided : Option Str) (company : Str) :
    (['/']).isPrefixOf (normalizeDashboardPath provided company) = true := by
  unfold normalizeDashboardPath
  cases provided with
  | none => simp [List.isPrefixOf]
  | some p =>
    by_cases hp : jsTrim p = []
    · simp [hp, List.isPrefixOf]
    · simp only [ne_eq, hp, not_false_eq_true, if_true]
      by_cases hsl : (['/'] : Str).isPrefixOf (jsTrim p)
      · simp [hsl]
      · simp [hsl, List.isPrefixOf]

theorem envUsersTable_dashboard (env : Env) (u : AuthUser) (h : u ∈ envUsersTable env) :
    (['/']).isPrefixOf u.dashboard = true := by
  unfold envUsersTable at h
  cases hcfg : env.authUsers with
  | array entries =>
    rw [hcfg] at h
    simp only [parseUsersCfg, parseUsersList_eq_filterMap] at h
    obtain ⟨e, _, he⟩ := List.mem_filterMap.mp h
    exact processEntry_some_dashboard e u he
  | absent => rw [hcfg] at h; simp [parseUsersCfg] at h
  | invalidJson => rw [hcfg] at h; simp [parseUsersCfg] at h
  | notArray => rw [hcfg] at h; simp [parseUsersCfg] at h

theorem envUsersTable_username_ne_nil (env : Env) (u : AuthUser) (h : u ∈ envUsersTable env) :
    u.username ≠ [] := by
  unfold envUsersTable at h
  cases hcfg : env.authUsers with
  | array entries =>
    rw [hcfg] at h
    simp only [parseUsersCfg, parseUsersList_eq_filterMap] at h
    obtain ⟨e, _, he⟩ := List.mem_filterMap.mp h
    exact processEntry_some_username e u he
  | absent => rw [hcfg] at h; simp [parseUsersCfg] at h
  | invalidJson => rw [hcfg] at h; simp [parseUsersCfg] at h
  | notArray => rw [hcfg] at h; simp [parseUsersCfg] at h

theorem findUserByUsername_nil (env : Env) : findUserByUsername env [] = none := by
  unfold findUserByUsername
  cases hf : (envUsersTable env).find? (fun u => u.username = []) with
  | none => rfl
  | some u =>
    have hmem := List.mem_of_find?_eq_some hf
    have hp := List.find?_some hf
    simp only [decide_eq_true_eq] at hp
    exact absurd hp (envUsersTable_username_ne_nil env u hmem)

/-- C7 counterexample: a list configuration with one malformed entry (no
username).  The entry is dropped (empty table) but the console log is
empty: no warning is emitted for individually dropped entries,
contradicting the claim that each malformed entry is dropped "with a
logged warning". -/
theorem parse_users_no_warning_cex :
    parseUsersCfg (.array [badEntry]) = ([], []) := by rfl

/-- C7 (amended): a structurally invalid blob (unparsable or not a list)
yields an empty table with a logged error; a list is validated entry by
entry — each malformed entry (no usable username, password, or derivable
company) is dropped individually and silently (no logged warning), while
every well-formed entry is retained in configuration order. -/
theorem parse_users_drop_spec :
    parseUsersCfg .invalidJson
      = ([], [.error ("AUTH_USERS kon niet geparse worden als JSON:".toList)])
    ∧ parseUsersCfg .notArray
      = ([], [.error ("AUTH_USERS moet een array zijn van gebruikersobjecten.".toList)])
    ∧ (∀ entries, (parseUsersCfg (.array entries)).1 = entries.filterMap processEntry
        ∧ (parseUsersCfg (.array entries)).2 = [])
    ∧ (∀ e, processEntry e = none ↔ entryMalformed e) := by
  refine ⟨rfl, rfl, ?_, processEntry_none_iff⟩
  intro entries
  exact ⟨parseUsersList_eq_filterMap entries, rfl⟩

/-- C7 witness: the amended behaviour evaluated on a concrete mixed
configuration — the well-formed entry is kept, the malformed one is
dropped. -/
theorem parse_users_drop_spec_check :
    (parseUsersCfg (.array [aliceRaw, badEntry])).1 = [aliceUser]
    ∧ processEntry badEntry = none := by
  refine ⟨?_, (parse_users_drop_spec.2.2.2 badEntry).mpr (by unfold entryMalformed; decide)⟩
  rw [(parse_users_drop_spec.2.2.1 [aliceRaw, badEntry]).1]
  decide

/-- C8: every credential record produced by the static parse or by
database row mapping has a dashboard path starting with `/`; a provided
path is kept (normalized with a leading `/` when absent) and a missing or
blank path defaults to `/dashboard/{company}`. -/
theorem dashboard_path_normalized :
    (∀ cfg : AuthUsersConfig, ∀ u ∈ (parseUsersCfg cfg).1, (['/']).isPrefixOf u.dashboard = true)
    ∧ (∀ row : AuthUserRow, (['/']).isPrefixOf (mapRowToAuthUser row).dashboard = true)
    ∧ (∀ provided company, jsTrim provided ≠ [] →
        normalizeDashboardPath (some provided) company
          = (if (['/']).isPrefixOf (jsTrim provided) then jsTrim provided
             else '/' :: jsTrim provided))
    ∧ (∀ (provided : Option Str) (company : Str),
        (provided = none ∨ ∃ p, provided = some p ∧ jsTrim p = []) →
        normalizeDashboardPath provided company = ("/dashboard/".toList) ++ company) := by
  refine ⟨?_, ?_, ?_, ?_⟩
  · intro cfg u hu
    cases cfg with
    | array entries =>
      simp only [parseUsersCfg, parseUsersList_eq_filterMap] at hu
      obtain ⟨e, _, he⟩ := List.mem_filterMap.mp hu
      exact processEntry_some_dashboard e u he
    | absent => simp [parseUsersCfg] at hu
    | invalidJson => simp [parseUsersCfg] at hu
    | notArray => simp [parseUsersCfg] at hu
  · intro row
    exact normalizeDashboardPath_slash row.dashboard_path row.company
  · intro provided company hne
    simp [normalizeDashboardPath, hne]
  · intro provided company h
    rcases h with rfl | ⟨p, rfl, hp⟩
    · rfl
    · simp [normalizeDashboardPath, hp]

/-- C8 witness: the clauses evaluated on concrete inputs — a parsed table
entry, a database row without a dashboard path, a relative provided path,
and a blank provided path. -/
theorem dashboard_path_normalized_check :
    (['/']).isPrefixOf aliceUser.dashboard = true
    ∧ normalizeDashboardPath (some ("team/x".toList)) ("acme".toList) = ("/team/x".toList)
    ∧ normalizeDashboardPath (some ("  ".toList)) ("acme".toList) = ("/dashboard/acme".toList) := by
  refine ⟨dashboard_path_normalized.1 (.array [aliceRaw]) aliceUser (by decide), ?_, ?_⟩
  · rw [dashboard_path_normalized.2.2.1 ("team/x".toList) ("acme".toList) (by decide)]
    decide
  · rw [dashboard_path_normalized.2.2.2 (some ("  ".toList)) ("acme".toList)
      (Or.inr ⟨("  ".toList), rfl, by decide⟩)]
    decide

theorem getSessionTtl_pos (raw : Option Str) : 0 < getSessionTtl raw := by
  have hdef : DEFAULT_SESSION_TTL_SECONDS = 28800 := by norm_num [DEFAULT_SESSION_TTL_SECONDS]
  cases raw with
  | none => simp [getSessionTtl, hdef]
  | some s =>
    by_cases hs : s = []
    · simp [getSessionTtl, hs, hdef]
    · cases hp : jsParseInt s with
      | none => simp [getSessionTtl, hs, hp, hdef]
      | some n =>
        by_cases hn : n ≤ 0
        · simp [getSessionTtl, hs, hp, hn, hdef]
        · simp [getSessionTtl, hs, hp, hn]
          omega

/-- C6: the effective session TTL is always positive; unset, blank,
non-numeric, or non-positive configuration falls back to the 8-hour
default of 28800 seconds, a parsed positive value is used as-is, and the
issued token expires exactly `ttl * 1000` milliseconds after the current
time. -/
theorem session_ttl_spec :
    (∀ raw : Option Str, 0 < getSessionTtl raw)
    ∧ (∀ raw : Option Str,
        raw = none ∨ raw = some [] ∨ jsParseInt (raw.getD []) = none
          ∨ (∃ n, jsParseInt (raw.getD []) = some n ∧ n ≤ 0) →
        getSessionTtl raw = 28800)
    ∧ (∀ (s : Str) (n : Int), jsParseInt s = some n → 0 < n → getSessionTtl (some s) = n)
    ∧ (∀ (mac : Str → Str → List Nat) (env : Env) (now : Int) (username secret : Str)
        (tok : SessionToken),
        getAuthSecret env = some secret →
        createSessionToken mac env now username = some tok →
        tok.expiresAt = now + getSessionTtl env.sessionMaxAge * 1000) := by
  have hdef : DEFAULT_SESSION_TTL_SECONDS = 28800 := by norm_num [DEFAULT_SESSION_TTL_SECONDS]
  refine ⟨getSessionTtl_pos, ?_, ?_, ?_⟩
  · intro raw h
    rcases h with rfl | rfl | hnone | ⟨n, hn, hnp⟩
    · simp [getSessionTtl, hdef]
    · simp [getSessionTtl, hdef]
    · cases raw with
      | none => simp [getSessionTtl, hdef]
      | some s =>
        simp only [Option.getD_some] at hnone
        by_cases hs : s = []
        · simp [getSessionTtl, hs, hdef]
        · simp [getSessionTtl, hs, hnone, hdef]
    · cases raw with
      | none => simp [getSessionTtl, hdef]
      | some s =>
        simp only [Option.getD_some] at hn
        by_cases hs : s = []
        · simp [getSessionTtl, hs, hdef]
        · simp [getSessionTtl, hs, hn, hnp, hdef]
  · intro s n hp hpos
    have hs : s ≠ [] := by
      intro hnil
      rw [hnil] at hp
      simp [jsParseInt, jsParseIntCore, List.dropWhile] at hp
    have hn : ¬n ≤ 0 := by omega
    simp [getSessionTtl, hs, hp, hn]
  · intro mac env now username secret tok hsec hcreate
    unfold createSessionToken at hcreate
    rw [hsec] at hcreate
    simp only [Option.some.injEq] at hcreate
    rw [← hcreate]

/-- C6 witness: the TTL clauses evaluated at a configured value of 600, a
non-positive value, and an unset variable, plus the expiry of a concretely
issued token. -/
theorem session_ttl_spec_check :
    0 < getSessionTtl (some ("600".toList))
    ∧ getSessionTtl (some ("-5".toList)) = 28800
    ∧ getSessionTtl none = 28800
    ∧ getSessionTtl (some ("600".toList)) = 600 := by
  refine ⟨session_ttl_spec.1 _, ?_, ?_, ?_⟩
  · exact session_ttl_spec.2.1 (some ("-5".toList))
      (Or.inr (Or.inr (Or.inr ⟨-5, by decide, by decide⟩)))
  · exact session_ttl_spec.2.1 none (Or.inl rfl)
  · exact session_ttl_spec.2.2.1 ("600".toList) 600 (by decide) (by decide)

theorem verify_split_first (mac : Str → Str → List Nat) (find : Str → Option AuthUser)
    (secretOpt : Option Str) (now : Int) (a b : Str) (ha : '.' ∉ a) :
    verifySessionTokenWith mac find secretOpt now (some (a ++ '.' :: b)) =
      (match secretOpt with
       | none => none
       | some secret =>
         if a = [] ∨ (splitOnChar '.' b).headD [] = [] then none
         else verifyParts mac find secret now a ((splitOnChar '.' b).headD [])) := by
  have htok : (a ++ '.' :: b : Str) ≠ [] := by simp
  simp only [verifySessionTokenWith, if_neg htok]
  cases secretOpt with
  | none => rfl
  | some secret =>
    simp only
    rw [splitOnChar_append '.' a b ha]
    obtain ⟨h, t, hht⟩ := List.exists_cons_of_ne_nil (splitOnChar_ne_nil '.' b)
    rw [hht]
    simp only [List.headD_cons, List.get?]
    by_cases hae : a = []
    · simp [hae]
    · by_cases hhe : h = []
      · simp [hae, hhe]
      · simp [hae, hhe]

theorem verify_some_subject (mac : Str → Str → List Nat) (find : Str → Option AuthUser)
    (secretOpt : Option Str) (now : Int) (tok : Str) (ident : AuthenticatedUser)
    (h : verifySessionTokenWith mac find secretOpt now (some tok) = some ident) :
    ∃ u, find ((splitOnChar ':' ((splitOnChar '.' tok).headD [])).headD []) = some u
      ∧ ident = stripPassword u := by
  simp only [verifySessionTokenWith] at h
  split at h
  · exact absurd h (by simp)
  · split at h
    · exact absurd h (by simp)
    · split at h
      · exact absurd h (by simp)
      · split at h
        · exact absurd h (by simp)
        · split at h
          · exact absurd h (by simp)
          · simp only [verifyParts] at h
            split at h
            · exact absurd h (by simp)
            · split at h
              · exact absurd h (by simp)
              · split at h
                · exact absurd h (by simp)
                · split at h
                  · split at h
                    · exact absurd h (by simp)
                    · rename_i u hfind
                      simp only [Option.some.injEq] at h
                      exact ⟨u, hfind, h.symm⟩
                  · exact absurd h (by simp)

theorem findUserByUsername_some (env : Env) (s : Str) (u : AuthUser)
    (h : findUserByUsername env s = some u) : u.username = s := by
  unfold findUserByUsername at h
  have := List.find?_some h
  simpa using this

theorem mem_b64EncodeBytes :
    ∀ (bytes : List Nat) (c : Char), c ∈ b64EncodeBytes bytes →
      (∃ n, c = b64Char n) ∨ c = '='
  | [], c, hc => by simp [b64EncodeBytes] at hc
  | [b1], c, hc => by
    simp only [b64EncodeBytes, List.mem_cons, List.mem_singleton] at hc
    rcases hc with rfl | rfl | rfl | h
    · exact Or.inl ⟨b1 / 4, rfl⟩
    · exact Or.inl ⟨b1 % 4 * 16, rfl⟩
    · exact Or.inr rfl
    · simp at h
      exact Or.inr h
  | [b1, b2], c, hc => by
    simp only [b64EncodeBytes, List.mem_cons, List.mem_singleton] at hc
    rcases hc with rfl | rfl | rfl | h
    · exact Or.inl ⟨b1 / 4, rfl⟩
    · exact Or.inl ⟨b1 % 4 * 16 + b2 / 16, rfl⟩
    · exact Or.inl ⟨b2 % 16 * 4, rfl⟩
    · simp at h
      exact Or.inr h
  | b1 :: b2 :: b3 :: rest, c, hc => by
    simp only [b64EncodeBytes, List.mem_cons] at hc
    rcases hc with rfl | rfl | rfl | rfl | h
    · exact Or.inl ⟨b1 / 4, rfl⟩
    · exact Or.inl ⟨b1 % 4 * 16 + b2 / 16, rfl⟩
    · exact Or.inl ⟨b2 % 16 * 4 + b3 / 64, rfl⟩
    · exact Or.inl ⟨b3 % 64, rfl⟩
    · exact mem_b64EncodeBytes rest c h

theorem mem_dropTrailingEq (s : Str) (c : Char) (hc : c ∈ dropTrailingEq s) : c ∈ s := by
  unfold dropTrailingEq at hc
  rw [List.mem_reverse] at hc
  have hsub := (@List.dropWhile_sublist _ s.reverse (fun c => c = '=')).subset hc
  exact List.mem_reverse.mp hsub

theorem b64UrlChar_b64Char_ne_dot_colon (n : Nat) :
    b64ToUrlChar (b64Char n) ≠ '.' ∧ b64ToUrlChar (b64Char n) ≠ ':' := by
  by_cases h : n < 64
  · refine ⟨b64UrlChar_ne_dot n h, ?_⟩
    revert h
    revert n
    decide
  · have hlen : b64Alphabet.length ≤ n := by
      have : b64Alphabet.length = 64 := by decide
      omega
    have hA : b64Char n = 'A' := by
      unfold b64Char
      exact List.getD_eq_default _ _ hlen
    rw [hA]
    decide

theorem mem_toBase64Url (bytes : List Nat) (c : Char) (hc : c ∈ toBase64Url bytes) :
    (∃ n, c = b64ToUrlChar (b64Char n)) ∨ c = '=' := by
  unfold toBase64Url at hc
  have hmem := mem_dropTrailingEq _ _ hc
  obtain ⟨d, hd, rfl⟩ := List.mem_map.mp hmem
  rcases mem_b64EncodeBytes bytes d hd with ⟨n, rfl⟩ | rfl
  · exact Or.inl ⟨n, rfl⟩
  · exact Or.inr (by decide)

theorem toBase64Url_no_dot (bytes : List Nat) : '.' ∉ toBase64Url bytes := by
  intro hmem
  rcases mem_toBase64Url bytes '.' hmem with ⟨n, hn⟩ | h
  · exact (b64UrlChar_b64Char_ne_dot_colon n).1 hn.symm
  · exact absurd h (by decide)

theorem toBase64Url_no_colon (bytes : List Nat) : ':' ∉ toBase64Url bytes := by
  intro hmem
  rcases mem_toBase64Url bytes ':' hmem with ⟨n, hn⟩ | h
  · exact (b64UrlChar_b64Char_ne_dot_colon n).2 hn.symm
  · exact absurd h (by decide)

theorem mem_intDecimal (i : Int) (c : Char) (hc : c ∈ intDecimal i) :
    c = '-' ∨ ∃ d, d < 10 ∧ c = digitChar d := by
  unfold intDecimal at hc
  by_cases h : i < 0
  · rw [if_pos h] at hc
    rcases List.mem_cons.mp hc with rfl | hc2
    · exact Or.inl rfl
    · exact Or.inr (natDecimal_mem _ c hc2)
  · rw [if_neg h] at hc
    exact Or.inr (natDecimal_mem _ c hc)

theorem intDecimal_no_dot (i : Int) : '.' ∉ intDecimal i := by
  intro hc
  rcases mem_intDecimal i '.' hc with h | ⟨d, hd, hdc⟩
  · exact absurd h (by decide)
  · exact (digitChar_ne d hd).2.2.1 hdc.symm

theorem intDecimal_no_colon (i : Int) : ':' ∉ intDecimal i := by
  intro hc
  rcases mem_intDecimal i ':' hc with h | ⟨d, hd, hdc⟩
  · exact absurd h (by decide)
  · exact (digitChar_ne d hd).2.2.2 hdc.symm

/-- C10: for a username containing `:` or `.` and a configured secret,
token issuance still succeeds, but verification of the resulting token can
only ever return an identity whose username is a strictly shorter string
than the original (the payload parse stops at the first separator), so the
original identity can never authenticate via its own token. -/
theorem colon_dot_username_cannot_authenticate
    (mac : Str → Str → List Nat) (env : Env) (now : Int) (secret username : Str)
    (hsec : getAuthSecret env = some secret)
    (hun : ':' ∈ username ∨ '.' ∈ username) :
    ∃ tok, createSessionToken mac env now username = some tok
      ∧ ∀ (t : Int) (ident : AuthenticatedUser),
          verifySessionToken mac env t (some tok.value) = some ident →
          ident.username.length < username.length ∧ ident.username ≠ username := by
  refine ⟨⟨createPayload username (now + getSessionTtl env.sessionMaxAge * 1000)
      ++ '.' :: toBase64Url (mac secret
          (createPayload username (now + getSessionTtl env.sessionMaxAge * 1000))),
      now + getSessionTtl env.sessionMaxAge * 1000⟩, ?_, ?_⟩
  · simp [createSessionToken, hsec]
  · intro t ident h
    obtain ⟨u, hfind, hident⟩ := verify_some_subject _ _ _ _ _ _ h
    have huser := findUserByUsername_some _ _ _ hfind
    have hlen : ((splitOnChar ':'
        ((splitOnChar '.' (createPayload username (now + getSessionTtl env.sessionMaxAge * 1000)
          ++ '.' :: toBase64Url (mac secret (createPayload username
            (now + getSessionTtl env.sessionMaxAge * 1000))))).headD [])).headD []).length
        < username.length := by
      rw [splitOnChar_headD, splitOnChar_headD]
      unfold createPayload
      by_cases hdot : '.' ∈ username
      · rw [takeWhile_append_stop _ _ _
          ⟨'.', by simp [List.mem_append, hdot], by simp⟩]
        rw [takeWhile_append_stop _ _ _ ⟨'.', hdot, by simp⟩]
        calc (List.takeWhile (fun x => x ≠ ':')
                (List.takeWhile (fun x => x ≠ '.') username)).length
            ≤ (List.takeWhile (fun x => x ≠ '.') username).length :=
              (List.takeWhile_sublist _).length_le
          _ < username.length := length_takeWhile_lt _ _ ⟨'.', hdot, by simp⟩
      · have hcol : ':' ∈ username := by
          rcases hun with h' | h'
          · exact h'
          · exact absurd h' hdot
        rw [takeWhile_append_all _ _ _ (by
          intro c hc
          rcases List.mem_append.mp hc with hc1 | hc2
          · simp only [decide_eq_true_eq]
            intro he
            exact hdot (he ▸ hc1)
          · rcases List.mem_cons.mp hc2 with rfl | hc3
            · simp
            · simp only [decide_eq_true_eq]
              intro he
              exact intDecimal_no_dot _ (he ▸ hc3))]
        rw [List.takeWhile_cons]
        simp only [decide_eq_true_eq, ne_eq, not_true_eq_false, decide_False,
          Bool.false_eq_true, if_false, List.append_nil]
        rw [takeWhile_append_stop _ _ _ ⟨':', hcol, by simp⟩]
        exact length_takeWhile_lt _ _ ⟨':', hcol, by simp⟩
    subst hident
    have : (stripPassword u).username = u.username := rfl
    rw [this, huser]
    refine ⟨hlen, ?_⟩
    intro he
    rw [he] at hlen
    exact Nat.lt_irrefl _ hlen

/-- C10 witness: the property instantiated for the configured username
`a:b` with the constant test HMAC at issuance time 0. -/
theorem colon_dot_username_cannot_authenticate_check :
    ∃ tok, createSessionToken macZero colonEnv 0 ("a:b".toList) = some tok
      ∧ ∀ (t : Int) (ident : AuthenticatedUser),
          verifySessionToken macZero colonEnv t (some tok.value) = some ident →
          ident.username.length < ("a:b".toList).length ∧ ident.username ≠ ("a:b".toList) :=
  colon_dot_username_cannot_authenticate macZero colonEnv 0 ("s3cret".toList) ("a:b".toList)
    (by decide) (by decide)

/-- C5 counterexample: the source splits at the FIRST `.`, not the last.
For the token `alice:99.<sig>.junk` (whose honest signature of the payload
`alice:99` sits in the second segment, with junk appended), the source
accepts the token — payload `alice:99`, signature `<sig>`, the third
segment ignored — while the spec's last-`.` split (payload
`alice:99.<sig>`, signature `junk`) rejects it. -/
theorem verify_split_last_cex :
    verifySessionToken macZero cenv 5 (some tokC5) = some (stripPassword aliceUser)
    ∧ verifySessionTokenLastSplit macZero (findUserByUsername cenv) (getAuthSecret cenv) 5
        (some tokC5) = none := by
  exact ⟨by decide, by decide⟩

/-- C5 (amended): `verifySessionToken` splits the token at the FIRST `.`:
the payload is everything before the first `.` and the signature is the
segment between the first and second `.` (the remainder when there is no
second); the token is rejected when either part is empty, and anything
after a second `.` is ignored. -/
theorem verify_splits_at_first_dot (mac : Str → Str → List Nat)
    (find : Str → Option AuthUser) (secretOpt : Option Str) (now : Int) (a b : Str)
    (ha : '.' ∉ a) :
    verifySessionTokenWith mac find secretOpt now (some (a ++ '.' :: b)) =
      (match secretOpt with
       | none => none
       | some secret =>
         if a = [] ∨ (splitOnChar '.' b).headD [] = [] then none
         else verifyParts mac find secret now a ((splitOnChar '.' b).headD [])) :=
  verify_split_first mac find secretOpt now a b ha

/-- C5 witness: the first-`.` split evaluated on a concrete token whose
signature region contains a further `.`. -/
theorem verify_splits_at_first_dot_check :
    verifySessionTokenWith macZero findAlice (some ("s3cret".toList)) 5
        (some (("alice:99".toList) ++ '.' :: ("sig.extra".toList))) =
      (match some ("s3cret".toList) with
       | none => none
       | some secret =>
         if ("alice:99".toList : Str) = [] ∨ (splitOnChar '.' ("sig.extra".toList)).headD [] = []
         then none
         else verifyParts macZero findAlice secret 5 ("alice:99".toList)
                ((splitOnChar '.' ("sig.extra".toList)).headD [])) :=
  verify_splits_at_first_dot macZero findAlice (some ("s3cret".toList)) 5
    ("alice:99".toList) ("sig.extra".toList) (by decide)

/-- C2: with a configured secret (and an HMAC returning 32-byte digests),
verification returns an identity iff the decoded signature segment equals
the HMAC of the payload segment under the current secret, the parsed
expiry is strictly in the future, and the parsed subject resolves — at
verification time — through the credential lookup; and (database backend)
a subject resolves iff its first matching row exists and is active. -/
theorem verify_token_valid_iff
    (mac : Str → Str → List Nat) (find : Str → Option AuthUser) (now : Int)
    (secret : Str) (tok : Str)
    (hlen : ∀ s m, (mac s m).length = 32)
    (hfind0 : find [] = none) :
    ((verifySessionTokenWith mac find (some secret) now (some tok)).isSome = true ↔
      ∃ payload sig rest, splitOnChar '.' tok = payload :: sig :: rest
        ∧ fromBase64Url sig = mac secret payload
        ∧ (∃ e, jsParseInt (((splitOnChar ':' payload).get? 1).getD []) = some e ∧ now < e)
        ∧ (find ((splitOnChar ':' payload).headD [])).isSome = true)
    ∧ (∀ (table : List AuthUserRow) (uname : Str) (x : AuthUser),
        dbFindUserByUsername table uname = some x ↔
          jsTrim uname ≠ []
          ∧ ∃ row, table.find? (fun r => r.username = jsTrim uname) = some row
              ∧ row.is_active.getD true = true
              ∧ x = mapRowToAuthUser row) := by
  constructor
  · constructor
    · intro h
      rw [Option.isSome_iff_exists] at h
      obtain ⟨ident, hid⟩ := h
      simp only [verifySessionTokenWith] at hid
      split at hid
      · exact absurd hid (by simp)
      · split at hid
        · exact absurd hid (by simp)
        · rename_i sig heq
          split at hid
          · exact absurd hid (by simp)
          · split at hid
            · exact absurd hid (by simp)
            · rename_i hpne hsne
              simp only [verifyParts] at hid
              split at hid
              · exact absurd hid (by simp)
              · rename_i e hparse
                split at hid
                · exact absurd hid (by simp)
                · split at hid
                  · exact absurd hid (by simp)
                  · split at hid
                    · rename_i hune hexp hmac
                      split at hid
                      · exact absurd hid (by simp)
                      · rename_i u hfind
                        obtain ⟨p0, r0, hp0⟩ :=
                          List.exists_cons_of_ne_nil (splitOnChar_ne_nil '.' tok)
                        rw [hp0] at heq
                        simp only [List.get?] at heq
                        obtain ⟨s0, r1, hr0⟩ : ∃ s0 r1, r0 = s0 :: r1 := by
                          cases r0 with
                          | nil => simp [List.get?] at heq
                          | cons s0 r1 => exact ⟨s0, r1, rfl⟩
                        rw [hr0] at hp0 heq
                        simp only [List.get?, Option.some.injEq] at heq
                        subst heq
                        rw [hp0] at hfind
                        rw [hp0] at hmac
                        rw [hp0] at hparse
                        rw [hp0] at hune
                        simp only [List.headD_cons] at hparse hune hfind hmac
                        refine ⟨p0, s0, r1, hp0, hmac, ⟨e, hparse, by omega⟩, ?_⟩
                        rw [hfind]
                        rfl
                    · exact absurd hid (by simp)
    · rintro ⟨payload, sig, rest, hsplit, hmac, ⟨e, hparse, he⟩, hfind⟩
      have htok : tok ≠ [] := by
        intro hnil
        rw [hnil] at hsplit
        simp [splitOnChar] at hsplit
      have hpne : payload ≠ [] := by
        intro hnil
        rw [hnil] at hfind
        simp only [splitOnChar, List.headD_cons] at hfind
        rw [hfind0] at hfind
        simp at hfind
      have hune : (splitOnChar ':' payload).headD [] ≠ [] := by
        intro hnil
        rw [hnil, hfind0] at hfind
        simp at hfind
      have hsne : sig ≠ [] := by
        intro hnil
        rw [hnil] at hmac
        have h0 : fromBase64Url [] = [] := rfl
        rw [h0] at hmac
        have := hlen secret payload
        rw [← hmac] at this
        simp at this
      simp only [verifySessionTokenWith, if_neg htok, hsplit]
      simp only [List.headD_cons, List.get?]
      rw [if_neg hpne, if_neg hsne]
      simp only [verifyParts, hparse]
      rw [if_neg hune, if_neg (by omega : ¬e ≤ now), if_pos hmac]
      rw [Option.isSome_iff_exists] at hfind
      obtain ⟨u, hu⟩ := hfind
      rw [hu]
      simp
  · intro table uname x
    by_cases ht : jsTrim uname = []
    · simp [dbFindUserByUsername, ht]
    · cases hf : table.find? (fun r => r.username = jsTrim uname) with
      | none => simp [dbFindUserByUsername, ht, hf]
      | some row =>
        by_cases hact : (row.is_active.getD true) = false
        · simp [dbFindUserByUsername, ht, hf, hact]
        · simp only [dbFindUserByUsername, if_neg ht, hf, if_neg hact, Option.some.injEq]
          constructor
          · intro hx
            refine ⟨ht, row, rfl, ?_, hx.symm⟩
            cases hia : row.is_active.getD true
            · exact absurd hia hact
            · rfl
          · rintro ⟨-, row', hrow', -, rfl⟩
            rw [hrow']

/-- C2 witness: a concretely forged-but-honest token `alice:999999.<sig>`
under the constant test HMAC is accepted at time 5, via the sufficiency
direction of the validity characterization. -/
theorem verify_token_valid_iff_check :
    (verifySessionTokenWith macZero findAlice (some ("s3cret".toList)) 5
        (some (("alice:999999".toList) ++ '.' :: sigZero))).isSome = true := by
  have h := verify_token_valid_iff macZero findAlice 5 ("s3cret".toList)
      (("alice:999999".toList) ++ '.' :: sigZero) (fun _ _ => by simp [macZero]) (by decide)
  exact h.1.mpr ⟨("alice:999999".toList), sigZero, [], by decide, by decide,
    ⟨999999, by decide, by decide⟩, by decide⟩

/-- C1 (amended): for a credential record that its username actually
resolves to (first record with that username; the data model makes
usernames unique) and whose username contains neither `:` nor `.`, with
the secret configured: credential verification with the record's password
succeeds, token issuance succeeds, and verification of the issued token
before its expiry returns the identity of that record — in particular the
same username. -/
theorem credential_token_roundtrip
    (mac : Str → Str → List Nat) (env : Env) (now t : Int) (secret : Str) (u : AuthUser)
    (hbytes : ∀ s m, ∀ b ∈ mac s m, b < 256)
    (hlen : ∀ s m, (mac s m).length = 32)
    (hsec : getAuthSecret env = some secret)
    (hfind : findUserByUsername env u.username = some u)
    (hcolon : ':' ∉ u.username) (hdot : '.' ∉ u.username)
    (hnow : 0 ≤ now) (ht : t < now + getSessionTtl env.sessionMaxAge * 1000) :
    verifyCredentials env u.username u.password = some (stripPassword u)
    ∧ ∃ tok, createSessionToken mac env now u.username = some tok
        ∧ verifySessionToken mac env t (some tok.value) = some (stripPassword u) := by
  have hE : (0 : Int) < now + getSessionTtl env.sessionMaxAge * 1000 := by
    have := getSessionTtl_pos env.sessionMaxAge
    omega
  refine ⟨?_, ?_⟩
  · unfold verifyCredentials
    rw [hfind]
    simp
  · refine ⟨⟨createPayload u.username (now + getSessionTtl env.sessionMaxAge * 1000)
        ++ '.' :: toBase64Url (mac secret (createPayload u.username
            (now + getSessionTtl env.sessionMaxAge * 1000))),
        now + getSessionTtl env.sessionMaxAge * 1000⟩, ?_, ?_⟩
    · simp [createSessionToken, hsec]
    · have hpd : '.' ∉ createPayload u.username (now + getSessionTtl env.sessionMaxAge * 1000) := by
        unfold createPayload
        intro hm
        rcases List.mem_append.mp hm with hm1 | hm2
        · exact hdot hm1
        · rcases List.mem_cons.mp hm2 with he | hm3
          · exact absurd he (by decide)
          · exact intDecimal_no_dot _ hm3
      unfold verifySessionToken
      rw [hsec]
      simp only
      rw [verify_split_first mac (findUserByUsername env) (some secret) t _ _ hpd]
      simp only
      rw [splitOnChar_of_not_mem '.' _ (toBase64Url_no_dot _)]
      simp only [List.headD_cons]
      have hmac32 := hlen secret (createPayload u.username
        (now + getSessionTtl env.sessionMaxAge * 1000))
      have hrt := fromBase64Url_toBase64Url _ (hbytes secret (createPayload u.username
        (now + getSessionTtl env.sessionMaxAge * 1000)))
      have hpne : createPayload u.username (now + getSessionTtl env.sessionMaxAge * 1000) ≠ [] := by
        unfold createPayload
        intro hnil
        cases u.username with
        | nil => simp at hnil
        | cons a b => simp at hnil
      have hsne : toBase64Url (mac secret (createPayload u.username
          (now + getSessionTtl env.sessionMaxAge * 1000))) ≠ [] := by
        intro hnil
        rw [hnil] at hrt
        have h0 : fromBase64Url [] = [] := rfl
        rw [h0] at hrt
        rw [← hrt] at hmac32
        simp at hmac32
      rw [if_neg (by
        intro hor
        rcases hor with h1 | h2
        · exact hpne h1
        · exact hsne h2)]
      unfold verifyParts
      have hsplitp : splitOnChar ':' (createPayload u.username
          (now + getSessionTtl env.sessionMaxAge * 1000))
          = [u.username, intDecimal (now + getSessionTtl env.sessionMaxAge * 1000)] := by
        unfold createPayload
        rw [splitOnChar_append ':' _ _ hcolon,
          splitOnChar_of_not_mem ':' _ (intDecimal_no_colon _)]
      rw [hsplitp]
      simp only [List.headD_cons, List.get?, Option.getD_some]
      rw [jsParseInt_intDecimal _ (by omega)]
      simp only
      have hune : u.username ≠ [] :=
        envUsersTable_username_ne_nil env u (List.mem_of_find?_eq_some hfind)
      rw [if_neg hune, if_neg (by omega : ¬now + getSessionTtl env.sessionMaxAge * 1000 ≤ t),
        if_pos hrt, hfind]

/-- C1 counterexample: the claim as stated fails for a credential record
whose username contains `:`.  With the single configured record
`a:b`/`pw`, credential verification succeeds and a token is issued, but
verifying that token before its expiry returns `none` (the payload parse
reads subject `a` and a non-numeric timestamp `b`). -/
theorem credential_token_roundtrip_cex :
    (verifyCredentials colonEnv ("a:b".toList) ("pw".toList)).isSome = true
    ∧ ∃ tok, createSessionToken macZero colonEnv 0 ("a:b".toList) = some tok
        ∧ 1 < tok.expiresAt
        ∧ verifySessionToken macZero colonEnv 1 (some tok.value) = none := by
  refine ⟨by decide, ⟨("a:b:28800000".toList) ++ '.' :: sigZero, 28800000⟩,
    by decide, by decide, by decide⟩

/-- C1 witness: the round trip for the configured record
`alice`/`pw`/`acme`, issued at time 0 and verified at time 1. -/
theorem credential_token_roundtrip_check :
    verifyCredentials cenv ("alice".toList) ("pw".toList) = some (stripPassword aliceUser)
    ∧ ∃ tok, createSessionToken macZero cenv 0 ("alice".toList) = some tok
        ∧ verifySessionToken macZero cenv 1 (some tok.value) = some (stripPassword aliceUser) := by
  have h := credential_token_roundtrip macZero cenv 0 1 ("s3cret".toList) aliceUser
    (fun s m b hb => by simp [macZero] at hb; omega)
    (fun _ _ => by simp [macZero])
    (by decide) (by decide) (by decide) (by decide) (by decide) (by decide)
  exact h

/-- C3: when authentication is not configured — no (trimmed) shared
secret, or non-database mode with no configured credentials — the gate
passes every request, whatever the path and cookie. -/
theorem gate_pass_when_unconfigured
    (mac : Str → Str → List Nat) (env : Env) (now : Int) (path search : Str)
    (cookie : Option Str)
    (h : getAuthSecret env = none
      ∨ (useDatabase env = false ∧ envUsersConfigured env.authUsers = false)) :
    middleware mac env now ⟨path, search, cookie⟩ = GateAction.pass := by
  have hconf : isAuthConfigured env = false := by
    unfold isAuthConfigured
    rcases h with hs | ⟨hdb, hus⟩
    · rw [hs]
    · cases hsec : getAuthSecret env with
      | none => rfl
      | some s => simp [hdb, hus]
  unfold middleware middlewareWith
  rw [hconf]
  simp

/-- C3 witness: the protected path `/admin/secret-page` passes both with
no secret configured and with no credentials in non-database mode. -/
theorem gate_pass_when_unconfigured_check :
    middleware macZero noSecretEnv 0 ⟨("/admin/secret-page".toList), [], none⟩ = GateAction.pass
    ∧ middleware macZero emptyUsersEnv 0 ⟨("/admin/secret-page".toList), [],
        some ("bogus".toList)⟩ = GateAction.pass :=
  ⟨gate_pass_when_unconfigured macZero noSecretEnv 0 ("/admin/secret-page".toList) [] none
      (Or.inl (by decide)),
   gate_pass_when_unconfigured macZero emptyUsersEnv 0 ("/admin/secret-page".toList) []
      (some ("bogus".toList)) (Or.inr ⟨by decide, by decide⟩)⟩

/-- C4: with authentication configured, for a request whose path is in
none of the allow-lists and whose cookie fails verification (or is
absent), the gate rejects with a 401 JSON error body when the path is
under `/api`, and otherwise redirects to `/login` carrying the requested
path plus query string as the return-path parameter. -/
theorem gate_reject_or_redirect_unauth
    (mac : Str → Str → List Nat) (env : Env) (now : Int) (path search : Str)
    (cookie : Option Str)
    (hconf : isAuthConfigured env = true)
    (hpub : isPublicOrStatic path = false)
    (hver : verifySessionToken mac env now cookie = none) :
    middleware mac env now ⟨path, search, cookie⟩ =
      if ("/api".toList).isPrefixOf path then
        GateAction.reject 401 [(("error".toList), ("Niet geautoriseerd".toList))]
      else GateAction.redirect ("/login".toList) (some (path ++ search)) := by
  have hlog : path ≠ ("/login".toList) := by
    intro he
    rw [he] at hpub
    have : isPublicOrStatic ("/login".toList) = true := by decide
    rw [this] at hpub
    exact absurd hpub (by simp)
  unfold middleware middlewareWith
  rw [hconf, hpub]
  simp only [Bool.not_true, Bool.false_eq_true, if_false]
  rw [hver]
  simp only [if_neg hlog]

/-- C4 witness: a cookieless request to `/api/usage` is rejected with the
401 JSON error; a cookieless request to `/admin/secret-page?q=1` is
redirected to `/login` with the return path. -/
theorem gate_reject_or_redirect_unauth_check :
    middleware macZero cenv 0 ⟨("/api/usage".toList), [], none⟩ =
      (if ("/api".toList).isPrefixOf ("/api/usage".toList) then
        GateAction.reject 401 [(("error".toList), ("Niet geautoriseerd".toList))]
       else GateAction.redirect ("/login".toList) (some (("/api/usage".toList) ++ [])))
    ∧ middleware macZero cenv 0 ⟨("/admin/secret-page".toList), ("?q=1".toList), none⟩ =
      (if ("/api".toList).isPrefixOf ("/admin/secret-page".toList) then
        GateAction.reject 401 [(("error".toList), ("Niet geautoriseerd".toList))]
       else GateAction.redirect ("/login".toList)
          (some (("/admin/secret-page".toList) ++ ("?q=1".toList)))) :=
  ⟨gate_reject_or_redirect_unauth macZero cenv 0 ("/api/usage".toList) [] none
      (by decide) (by decide) (by decide),
   gate_reject_or_redirect_unauth macZero cenv 0 ("/admin/secret-page".toList)
      ("?q=1".toList) none (by decide) (by decide) (by decide)⟩
